import Mathlib

/-!
Verification of the Advanced Word Count preprocessing and metric pipeline.

The TypeScript source is embedded shallowly over `List Char`:

* Each JavaScript regex substitution of the pipeline becomes an explicit,
  executable scanner.  A matcher `List Char → Option (List Char × List Char)`
  reports, at the current position, the replacement (or matched) text and the
  remainder of the input after the match; a structurally recursive driver
  (`replaceAll` / `collectMatches`, fueled by the input length, every matcher
  consumes at least one character) replays JavaScript global replacement,
  which scans left to right and resumes after each match without rescanning
  the replacement.
* Lazy dots (`.*?`, which never match a newline) are modelled by
  continuation-passing scans (`scanLazyK`, `findClose1`, `findClose2`); greedy
  character classes (`[^x]*`) by `takeWhile`/`drop`.
* JavaScript whitespace (`\s`, `trim`) is fixed to the ASCII whitespace set;
  the embedding uses the same set everywhere, as JavaScript does.

The `pages` metric is the one field not embedded: it is produced by IEEE-754
double division and `Number.prototype.toFixed`, whose rounding cannot be
captured in this integer/list embedding.
-/

namespace WordCount

/-- JavaScript whitespace (`\s` and `String.prototype.trim`), ASCII range. -/
def isWs (c : Char) : Bool :=
  c == ' ' || c == '\t' || c == '\n' || c == '\r' || c == '\x0b' || c == '\x0c'

/-- ASCII digit test (`\d`). -/
def isDigit (c : Char) : Bool :=
  '0' ≤ c && c ≤ '9'

/-- `String.prototype.trim`: drop leading and trailing whitespace. -/
def jsTrim (s : List Char) : List Char :=
  ((s.dropWhile isWs).reverse.dropWhile isWs).reverse

/-- The preset record from the source (`id` and `name` omitted: they never
influence the metric computation). -/
structure Preset where
  wordsPerPage : Nat
  showWordsWithSpaces : Bool
  showCharsWithSpaces : Bool
  showCharsWithoutSpaces : Bool
  showPages : Bool
  showLines : Bool
  showParagraphs : Bool
  showMarkdownLinks : Bool
  showWikiLinks : Bool
  showCitekeys : Bool
  countMdLinksAsWords : Bool
  countWikiLinkDisplayText : Bool
  ignoreWikiLinks : Bool
  countCitekeysAsWords : Bool
  ignoreComments : Bool

/-- The metrics record from the source (`pages` omitted: floating point). -/
structure Metrics where
  wordsWithSpaces : Nat
  charsWithSpaces : Nat
  charsWithoutSpaces : Nat
  lines : Nat
  paragraphs : Nat
  markdownLinks : Nat
  wikiLinks : Nat
  citekeys : Nat

/-- Driver for a global regex replacement (`s.replace(/pat/g, …)`): at each
position try the matcher; on a match emit the replacement and resume after the
match, otherwise keep the character and move on.  Fueled by the input length;
every matcher used below consumes at least one character, so the fuel never
runs out on the recursive calls. -/
def replaceAllAux (m : List Char → Option (List Char × List Char)) :
    Nat → List Char → List Char
  | _, [] => []
  | 0, s => s
  | fuel + 1, c :: cs =>
    match m (c :: cs) with
    | some (repl, rest) => repl ++ replaceAllAux m fuel rest
    | none => c :: replaceAllAux m fuel cs

def replaceAll (m : List Char → Option (List Char × List Char))
    (s : List Char) : List Char :=
  replaceAllAux m s.length s

/-- Driver for `s.match(/pat/g)`: collect the texts of all matches. -/
def collectMatchesAux (m : List Char → Option (List Char × List Char)) :
    Nat → List Char → List (List Char)
  | _, [] => []
  | 0, _ => []
  | fuel + 1, c :: cs =>
    match m (c :: cs) with
    | some (txt, rest) => txt :: collectMatchesAux m fuel rest
    | none => collectMatchesAux m fuel cs

def collectMatches (m : List Char → Option (List Char × List Char))
    (s : List Char) : List (List Char) :=
  collectMatchesAux m s.length s

/-- Scan for the first occurrence of the literal `pat` and return the input
after it: the `[\s\S]*?pat` tail of a delimited-span regex. -/
def dropAfter (pat : List Char) : List Char → Option (List Char)
  | [] => if pat.isPrefixOf ([] : List Char) then some [] else none
  | c :: cs =>
    if pat.isPrefixOf (c :: cs) then some ((c :: cs).drop pat.length)
    else dropAfter pat cs

/-- Lazy-dot scan `.*?stop` with continuation `k`: try `k` at each occurrence
of `stop` in order (leftmost first); the dot never matches a newline, so a
newline aborts the scan.  `k` receives the text consumed by the dots and the
input after the stop character. -/
def scanLazyK (stop : Char) (k : List Char → List Char → Option α) :
    List Char → List Char → Option α
  | _, [] => none
  | acc, c :: cs =>
    if c = stop then
      match k acc.reverse cs with
      | some a => some a
      | none => scanLazyK stop k (c :: acc) cs
    else if c = '\n' then none
    else scanLazyK stop k (c :: acc) cs

/-- Lazy-dot scan for a one-character closer (`.*?d`), returning the consumed
text and the input after the closer. -/
def findClose1 (d : Char) : List Char → Option (List Char × List Char)
  | [] => none
  | c :: cs =>
    if c = d then some ([], cs)
    else if c = '\n' then none
    else (findClose1 d cs).map fun p => (c :: p.1, p.2)

/-- Lazy-dot scan for a doubled closer `dd` (`.*?dd`), returning the consumed
text and the input after the closer. -/
def findClose2 (d : Char) : List Char → Option (List Char × List Char)
  | c1 :: c2 :: cs =>
    if c1 = d && c2 = d then some ([], cs)
    else if c1 = '\n' then none
    else (findClose2 d (c2 :: cs)).map fun p => (c1 :: p.1, p.2)
  | _ => none

/-- Greedy character class up to `close` (`([^x]*)x`): the maximal run of
characters other than `close`, which must then be followed by `close`. -/
def classTo (close : Char) (s : List Char) : Option (List Char × List Char) :=
  let body := s.takeWhile fun c => c ≠ close
  match s.drop body.length with
  | _ :: r => some (body, r)
  | [] => none

/-! ### Frontmatter (`s.replace(/^---[\s\S]*?---\n?/, "")`) -/

/-- Scan for the first occurrence of `---` (the lazy `[\s\S]*?---`) and return
the input after it. -/
def dropTripleDash : List Char → Option (List Char)
  | [] => none
  | c :: cs =>
    if ['-', '-', '-'].isPrefixOf (c :: cs) then some ((c :: cs).drop 3)
    else dropTripleDash cs

/-- Whether `---` occurs anywhere in the text. -/
def hasTripleDash (s : List Char) : Bool :=
  (dropTripleDash s).isSome

/-- The optional trailing `\n?` of the frontmatter pattern. -/
def dropLeadingNewline : List Char → List Char
  | '\n' :: r => r
  | s => s

/-- `s.replace(/^---[\s\S]*?---\n?/, "")`: anchored at position zero, lazy to
the next `---`, then one optional newline. -/
def stripFrontmatter (s : List Char) : List Char :=
  match s with
  | '-' :: '-' :: '-' :: rest =>
    match dropTripleDash rest with
    | some after => dropLeadingNewline after
    | none => s
  | _ => s

/-! ### Comments, code, images -/

/-- `%%[\s\S]*?%%` (replacement is empty). -/
def matchPctComment : List Char → Option (List Char × List Char)
  | '%' :: '%' :: cs => (dropAfter ['%', '%'] cs).map fun r => ([], r)
  | _ => none

/-- `<!--[\s\S]*?-->` (replacement is empty). -/
def matchHtmlComment : List Char → Option (List Char × List Char)
  | '<' :: '!' :: '-' :: '-' :: cs =>
    (dropAfter ['-', '-', '>'] cs).map fun r => ([], r)
  | _ => none

/-- Comment stripping, conditional on `ignoreComments`
(`%%…%%` first, then `<!--…-->`). -/
def commentStep (ignoreComments : Bool) (s : List Char) : List Char :=
  if ignoreComments then replaceAll matchHtmlComment (replaceAll matchPctComment s)
  else s

/-- Fenced code block (three backticks, lazy, three backticks). -/
def matchFence : List Char → Option (List Char × List Char)
  | '`' :: '`' :: '`' :: cs => (dropAfter ['`', '`', '`'] cs).map fun r => ([], r)
  | _ => none

/-- Inline code span: a backtick, a greedy run of non-backticks, a backtick. -/
def matchInlineCode : List Char → Option (List Char × List Char)
  | '`' :: cs =>
    match cs.dropWhile (fun c => c ≠ '`') with
    | '`' :: r => some ([], r)
    | _ => none
  | _ => none

/-- Code removal (always): fences first, then inline spans. -/
def codeStep (s : List Char) : List Char :=
  replaceAll matchInlineCode (replaceAll matchFence s)

/-- `!\[.*?\]\(.*?\)` — image token (replacement is empty). -/
def matchImage : List Char → Option (List Char × List Char)
  | '!' :: '[' :: cs =>
    scanLazyK ']'
      (fun _ r1 =>
        match r1 with
        | '(' :: r2 => scanLazyK ')' (fun _ r3 => some (([] : List Char), r3)) [] r2
        | _ => none)
      [] cs
  | _ => none

/-- Image removal (always, before generic link handling). -/
def imageStep (s : List Char) : List Char :=
  replaceAll matchImage s

/-! ### Markdown links -/

/-- `\[([^\]]*)\]\(([^)]*)\)` — standard-form markdown link; returns
`((label, url), rest)`. -/
def matchMdStd : List Char → Option ((List Char × List Char) × List Char)
  | '[' :: cs =>
    match classTo ']' cs with
    | some (label, r1) =>
      match r1 with
      | '(' :: r2 =>
        match classTo ')' r2 with
        | some (url, r3) => some ((label, url), r3)
        | none => none
      | _ => none
    | none => none
  | _ => none

/-- `\(([^)]*)\)\[([^\]]*)\]` — reversed-form markdown link; returns
`((url, label), rest)`. -/
def matchMdRev : List Char → Option ((List Char × List Char) × List Char)
  | '(' :: cs =>
    match classTo ')' cs with
    | some (url, r1) =>
      match r1 with
      | '[' :: r2 =>
        match classTo ']' r2 with
        | some (label, r3) => some ((url, label), r3)
        | none => none
      | _ => none
    | none => none
  | _ => none

/-- Markdown-link resolution: keep only the label (`countMdLinksAsWords`), or
replace the match by `` `${label} ${url.trim()}`.trim() ``. -/
def mdStep (countMdLinksAsWords : Bool) (s : List Char) : List Char :=
  if countMdLinksAsWords then
    replaceAll (fun t => (matchMdRev t).map fun p => (p.1.2, p.2))
      (replaceAll (fun t => (matchMdStd t).map fun p => (p.1.1, p.2)) s)
  else
    replaceAll
      (fun t => (matchMdRev t).map fun p =>
        (jsTrim (p.1.2 ++ ' ' :: jsTrim p.1.1), p.2))
      (replaceAll
        (fun t => (matchMdStd t).map fun p =>
          (jsTrim (p.1.1 ++ ' ' :: jsTrim p.1.2), p.2)) s)

/-! ### Wiki links -/

/-- `\[\[.*?\]\]` — lazy wikilink token; returns `(inner, rest)`. -/
def matchWikiLazy : List Char → Option (List Char × List Char)
  | '[' :: '[' :: cs => findClose2 ']' cs
  | _ => none

/-- `\[\[([^\]|]*)\|?([^\]]*)\]\]` — display-text wikilink pattern; returns
`((page, display), rest)`. -/
def matchWikiDisplay : List Char → Option ((List Char × List Char) × List Char)
  | '[' :: '[' :: cs =>
    let page := cs.takeWhile fun c => c ≠ ']' && c ≠ '|'
    let r1 := cs.drop page.length
    let r2 := match r1 with
      | '|' :: r => r
      | _ => r1
    let disp := r2.takeWhile fun c => c ≠ ']'
    match r2.drop disp.length with
    | ']' :: ']' :: r => some ((page, disp), r)
    | _ => none
  | _ => none

/-- `\[\[([^\]]*)\]\]` — count-everything-inside wikilink pattern; returns
`(inner, rest)`. -/
def matchWikiAll : List Char → Option (List Char × List Char)
  | '[' :: '[' :: cs =>
    let inner := cs.takeWhile fun c => c ≠ ']'
    match cs.drop inner.length with
    | ']' :: ']' :: r => some (inner, r)
    | _ => none
  | _ => none

/-- `str.replace(/#.*$/, "")`: delete from the first `#` that is followed by
no further newline, through the end (`$` without the `m` flag is end of
input, and `.` cannot cross a newline). -/
def stripHashToEnd : List Char → List Char
  | [] => []
  | '#' :: cs => if cs.contains '\n' then '#' :: stripHashToEnd cs else []
  | c :: cs => c :: stripHashToEnd cs

/-- Wiki-link resolution: strip entirely (`ignoreWikiLinks`), keep the display
text (`countWikiLinkDisplayText`), or keep everything inside with `|` and `#`
as whitespace (default). -/
def wikiStep (ignoreWikiLinks countWikiLinkDisplayText : Bool)
    (s : List Char) : List Char :=
  if ignoreWikiLinks then
    replaceAll (fun t => (matchWikiLazy t).map fun p => (([] : List Char), p.2)) s
  else if countWikiLinkDisplayText then
    replaceAll
      (fun t => (matchWikiDisplay t).map fun p =>
        (jsTrim (stripHashToEnd
          (if jsTrim p.1.2 = [] then jsTrim p.1.1 else jsTrim p.1.2)), p.2)) s
  else
    replaceAll
      (fun t => (matchWikiAll t).map fun p =>
        (jsTrim (p.1.map fun c => if c = '|' || c = '#' then ' ' else c), p.2)) s

/-! ### Citekeys -/

/-- `\[@([^\]]+)\]` — citekey with a nonempty key; returns `(key, rest)`. -/
def matchCitePlus : List Char → Option (List Char × List Char)
  | '[' :: '@' :: cs =>
    let key := cs.takeWhile fun c => c ≠ ']'
    if key = [] then none
    else
      match cs.drop key.length with
      | ']' :: r => some (key, r)
      | _ => none
  | _ => none

/-- `\[@[^\]]*\]` — citekey with a possibly empty key; returns `(key, rest)`. -/
def matchCiteStar : List Char → Option (List Char × List Char)
  | '[' :: '@' :: cs =>
    let key := cs.takeWhile fun c => c ≠ ']'
    match cs.drop key.length with
    | ']' :: r => some (key, r)
    | _ => none
  | _ => none

/-- Citekey resolution: keep the key as a word, or strip the token. -/
def citekeyStep (countCitekeysAsWords : Bool) (s : List Char) : List Char :=
  if countCitekeysAsWords then
    replaceAll (fun t => (matchCitePlus t).map fun p => (p.1, p.2)) s
  else
    replaceAll (fun t => (matchCiteStar t).map fun p => (([] : List Char), p.2)) s

/-! ### Inline decoration -/

/-- `#{1,6}\s` — one to six hashes and a following whitespace character
(replacement is empty). -/
def matchHeading : List Char → Option (List Char × List Char)
  | '#' :: cs =>
    let run := cs.takeWhile fun c => c = '#'
    if run.length + 1 ≤ 6 then
      match cs.drop run.length with
      | c :: r => if isWs c then some ([], r) else none
      | [] => none
    else none
  | _ => none

/-- `(\*\*|__)(.*?)\1` — bold; the replacement keeps the inner text. -/
def matchBold : List Char → Option (List Char × List Char)
  | '*' :: '*' :: cs => findClose2 '*' cs
  | '_' :: '_' :: cs => findClose2 '_' cs
  | _ => none

/-- `(\*|_)(.*?)\1` — italic; the replacement keeps the inner text. -/
def matchItalic : List Char → Option (List Char × List Char)
  | '*' :: cs => findClose1 '*' cs
  | '_' :: cs => findClose1 '_' cs
  | _ => none

/-- `~~(.*?)~~` — strikethrough; the replacement keeps the inner text. -/
def matchStrike : List Char → Option (List Char × List Char)
  | '~' :: '~' :: cs => findClose2 '~' cs
  | _ => none

/-- `>\s` — blockquote marker (replacement is empty). -/
def matchQuote : List Char → Option (List Char × List Char)
  | '>' :: c :: r => if isWs c then some ([], r) else none
  | _ => none

/-- Inline decoration stripping (always): headings, bold, italic,
strikethrough, blockquote markers, then every `|`. -/
def decorationStep (s : List Char) : List Char :=
  (replaceAll matchQuote
    (replaceAll matchStrike
      (replaceAll matchItalic
        (replaceAll matchBold
          (replaceAll matchHeading s))))).filter fun c => c ≠ '|'

/-- The `preprocessBase` pipeline after its first (frontmatter) step. -/
def pipelineAfterFrontmatter (s : List Char) (p : Preset) : List Char :=
  decorationStep
    (citekeyStep p.countCitekeysAsWords
      (wikiStep p.ignoreWikiLinks p.countWikiLinkDisplayText
        (mdStep p.countMdLinksAsWords
          (imageStep
            (codeStep
              (commentStep p.ignoreComments s))))))

/-- `preprocessBase` from the source: the ordered transform pipeline shared by
the word and character buffers (list markers still present). -/
def preprocessBase (raw : List Char) (p : Preset) : List Char :=
  pipelineAfterFrontmatter (stripFrontmatter raw) p

/-! ### Word buffer (`preprocessText`) -/

/-- `[-*+]\s` — list marker anywhere in the text (word buffer only). -/
def matchUnorderedAny : List Char → Option (List Char × List Char)
  | c :: w :: r =>
    if (c = '-' || c = '*' || c = '+') && isWs w then some ([], r) else none
  | _ => none

/-- `\d+\.\s` — numbered marker anywhere in the text (word buffer only). -/
def matchNumberedAny (s : List Char) : Option (List Char × List Char) :=
  let ds := s.takeWhile isDigit
  if ds = [] then none
  else
    match s.drop ds.length with
    | '.' :: w :: r => if isWs w then some ([], r) else none
    | _ => none

/-- `preprocessText` from the source: the base pipeline, then list markers
removed for word counting. -/
def preprocessText (raw : List Char) (p : Preset) : List Char :=
  replaceAll matchNumberedAny (replaceAll matchUnorderedAny (preprocessBase raw p))

/-! ### Word count -/

/-- `split(/\s+/)`: tokens between maximal whitespace runs (with the leading
and trailing empty tokens JavaScript produces).  Fueled by the input length;
the head of the matched `dropWhile` suffix is whitespace, so dropping the run
consumes at least one character per step. -/
def splitWsAux : Nat → List Char → List (List Char)
  | 0, s => [s]
  | fuel + 1, s =>
    match s.dropWhile (fun c => !isWs c) with
    | [] => [s.takeWhile fun c => !isWs c]
    | _ :: xs =>
      (s.takeWhile fun c => !isWs c) :: splitWsAux fuel (xs.dropWhile isWs)

def splitWs (s : List Char) : List (List Char) :=
  splitWsAux s.length s

/-- `countWordsWithSpaces` (current revision):
`trimmed ? trimmed.split(/\s+/).length : 0`. -/
def countWordsWithSpaces (preprocessed : List Char) : Nat :=
  let trimmed := jsTrim preprocessed
  if trimmed = [] then 0 else (splitWs trimmed).length

/-- `countWordsWithSpaces` (earlier revision, `main.ts`): additionally filters
out zero-length tokens. -/
def countWordsWithSpacesPrev (preprocessed : List Char) : Nat :=
  let trimmed := jsTrim preprocessed
  if trimmed = [] then 0
  else ((splitWs trimmed).filter fun w => decide (0 < w.length)).length

/-! ### Character buffers and list-marker placeholders -/

/-- `split("\n")`. -/
def splitLines : List Char → List (List Char)
  | [] => [[]]
  | c :: cs =>
    if c = '\n' then [] :: splitLines cs
    else
      match splitLines cs with
      | [] => [[c]]
      | l :: ls => (c :: l) :: ls

/-- Inverse of `splitLines`: interpose newlines. -/
def joinLines : List (List Char) → List Char
  | [] => []
  | [l] => l
  | l :: ls => l ++ '\n' :: joinLines ls

/-- `^- \[[ x]\] ` — checkbox marker at the start of a line. -/
def matchCheckbox : List Char → Option (List Char)
  | a :: b :: c :: d :: e :: f :: r =>
    if a = '-' && b = ' ' && c = '[' && (d = ' ' || d = 'x') && e = ']' && f = ' '
    then some r else none
  | _ => none

/-- `^[*\-+] ` — unordered marker at the start of a line. -/
def matchUnorderedLine : List Char → Option (List Char)
  | c :: w :: r =>
    if (c = '*' || c = '-' || c = '+') && w = ' ' then some r else none
  | _ => none

/-- `^\d+\. ` — numbered (dot) marker at the start of a line. -/
def matchNumDotLine (s : List Char) : Option (List Char) :=
  if s.takeWhile isDigit = [] then none
  else
    match s.drop (s.takeWhile isDigit).length with
    | '.' :: ' ' :: r => some r
    | _ => none

/-- `^\d+\) ` — numbered (paren) marker at the start of a line. -/
def matchNumParenLine (s : List Char) : Option (List Char) :=
  if s.takeWhile isDigit = [] then none
  else
    match s.drop (s.takeWhile isDigit).length with
    | ')' :: ' ' :: r => some r
    | _ => none

/-- One line under a `^pat/gm` replacement. -/
def rewriteLine (m : List Char → Option (List Char)) (repl l : List Char) :
    List Char :=
  match m l with
  | some r => repl ++ r
  | none => l

/-- A `^pat/gm` global replacement: the pattern is line-anchored and cannot
match a newline, so the replacement rewrites the head of each line
independently. -/
def replaceLineStarts (m : List Char → Option (List Char)) (repl : List Char)
    (s : List Char) : List Char :=
  joinLines ((splitLines s).map (rewriteLine m repl))

/-- Placeholder for checkbox and unordered markers. -/
def uPlaceholder (countSpaces : Bool) : List Char :=
  if countSpaces then ['\x01', '\x02'] else ['\x01']

/-- Placeholder for numbered markers. -/
def nPlaceholder (countSpaces : Bool) : List Char :=
  if countSpaces then ['\x01', '\x02', '\x03'] else ['\x01', '\x02']

/-- `substituteListMarkers` from the source: the four line-anchored
replacements, in order (checkbox, unordered, numbered dot, numbered paren). -/
def substituteListMarkers (base : List Char) (countSpaces : Bool) : List Char :=
  replaceLineStarts matchNumParenLine (nPlaceholder countSpaces)
    (replaceLineStarts matchNumDotLine (nPlaceholder countSpaces)
      (replaceLineStarts matchUnorderedLine (uPlaceholder countSpaces)
        (replaceLineStarts matchCheckbox (uPlaceholder countSpaces) base)))

/-- `countCharsWithSpaces` (current revision): length of the substituted
with-spaces buffer. -/
def countCharsWithSpaces (base : List Char) : Nat :=
  (substituteListMarkers base true).length

/-- `countCharsWithoutSpaces`: length of the substituted without-spaces buffer
after removing all whitespace (`replace(/\s/g, "")`). -/
def countCharsWithoutSpaces (base : List Char) : Nat :=
  ((substituteListMarkers base false).filter fun c => !isWs c).length

/-- The with-spaces character buffer (derived buffer fed to the with-spaces
character count). -/
def charBufferWithSpaces (raw : List Char) (p : Preset) : List Char :=
  substituteListMarkers (preprocessBase raw p) true

/-! ### Structural counters (raw text) -/

/-- `countLines`: `text ? text.split("\n").length : 0`. -/
def countLines (text : List Char) : Nat :=
  if text = [] then 0 else (splitLines text).length

/-- `split(/\n{2,}/)`: segments between maximal runs of two or more
newlines. -/
def splitParaAux : Nat → List Char → List Char → List (List Char)
  | _, acc, [] => [acc.reverse]
  | 0, acc, s => [acc.reverse ++ s]
  | fuel + 1, acc, '\n' :: '\n' :: rest =>
    acc.reverse :: splitParaAux fuel [] (rest.dropWhile fun c => c = '\n')
  | fuel + 1, acc, c :: cs => splitParaAux fuel (c :: acc) cs

/-- The block count on already frontmatter-stripped text: split on blank-line
runs and keep the blocks with nonempty trimmed content. -/
def countBlocks (stripped : List Char) : Nat :=
  ((splitParaAux stripped.length [] stripped).filter
    fun b => !(jsTrim b).isEmpty).length

/-- `countParagraphs`: strip leading frontmatter, split on runs of two or more
newlines, count the blocks with nonempty trimmed content. -/
def countParagraphs (text : List Char) : Nat :=
  if text = [] then 0 else countBlocks (stripFrontmatter text)

/-- `\[.*?\]\(.*?\)` — standard-form link with the full matched text. -/
def matchMdLazy : List Char → Option (List Char × List Char)
  | '[' :: cs =>
    scanLazyK ']'
      (fun seg1 r1 =>
        match r1 with
        | '(' :: r2 =>
          scanLazyK ')'
            (fun seg2 r3 =>
              some ('[' :: seg1 ++ ']' :: '(' :: seg2 ++ [')'], r3))
            [] r2
        | _ => none)
      [] cs
  | _ => none

/-- `\(.*?\)\[.*?\]` — reversed-form link with the full matched text. -/
def matchMdRevLazy : List Char → Option (List Char × List Char)
  | '(' :: cs =>
    scanLazyK ')'
      (fun seg1 r1 =>
        match r1 with
        | '[' :: r2 =>
          scanLazyK ']'
            (fun seg2 r3 =>
              some ('(' :: seg1 ++ ')' :: '[' :: seg2 ++ [']'], r3))
            [] r2
        | _ => none)
      [] cs
  | _ => none

/-- `countMarkdownLinks`: standard-form matches not starting with `!`, plus
reversed-form matches. -/
def countMarkdownLinks (text : List Char) : Nat :=
  ((collectMatches matchMdLazy text).filter fun m => !(m.take 1 == ['!'])).length
    + (collectMatches matchMdRevLazy text).length

/-- `countWikiLinks`: matches of `\[\[.*?\]\]`. -/
def countWikiLinks (text : List Char) : Nat :=
  (collectMatches matchWikiLazy text).length

/-- `countCitekeys`: matches of `\[@[^\]]+\]`. -/
def countCitekeys (text : List Char) : Nat :=
  (collectMatches matchCitePlus text).length

/-- The metrics record assembled in `updateCount` (the floating-point `pages`
string is the one field omitted from the embedding). -/
def computeMetrics (raw : List Char) (p : Preset) : Metrics where
  wordsWithSpaces := countWordsWithSpaces (preprocessText raw p)
  charsWithSpaces := countCharsWithSpaces (preprocessBase raw p)
  charsWithoutSpaces := countCharsWithoutSpaces (preprocessBase raw p)
  lines := countLines raw
  paragraphs := countParagraphs raw
  markdownLinks := countMarkdownLinks raw
  wikiLinks := countWikiLinks raw
  citekeys := countCitekeys raw

/-! ### Projection lemmas and shared sample presets -/

lemma computeMetrics_wordsWithSpaces (raw : List Char) (p : Preset) :
    (computeMetrics raw p).wordsWithSpaces
      = countWordsWithSpaces (preprocessText raw p) := by
  simp only [computeMetrics]

lemma computeMetrics_charsWithSpaces (raw : List Char) (p : Preset) :
    (computeMetrics raw p).charsWithSpaces
      = countCharsWithSpaces (preprocessBase raw p) := by
  simp only [computeMetrics]

lemma computeMetrics_markdownLinks (raw : List Char) (p : Preset) :
    (computeMetrics raw p).markdownLinks = countMarkdownLinks raw := by
  simp only [computeMetrics]

/-- The source's `defaultPreset()` flag values. -/
def samplePreset : Preset :=
  { wordsPerPage := 250, showWordsWithSpaces := true, showCharsWithSpaces := false,
    showCharsWithoutSpaces := false, showPages := true, showLines := false,
    showParagraphs := false, showMarkdownLinks := false, showWikiLinks := false,
    showCitekeys := false, countMdLinksAsWords := false,
    countWikiLinkDisplayText := false, ignoreWikiLinks := false,
    countCitekeysAsWords := false, ignoreComments := true }

/-- `preprocessText` reads only the five inclusion-policy flags. -/
lemma preprocessText_policy (raw : List Char) (p q : Preset)
    (hmd : p.countMdLinksAsWords = q.countMdLinksAsWords)
    (hiw : p.ignoreWikiLinks = q.ignoreWikiLinks)
    (hdt : p.countWikiLinkDisplayText = q.countWikiLinkDisplayText)
    (hck : p.countCitekeysAsWords = q.countCitekeysAsWords)
    (hic : p.ignoreComments = q.ignoreComments) :
    preprocessText raw p = preprocessText raw q := by
  simp only [preprocessText, preprocessBase, pipelineAfterFrontmatter,
    hmd, hiw, hdt, hck, hic]

/-! ### Claim theorems -/

/-- C1: on the spec's own scenario text the code reports `markdownLinks = 2`
under every preset.  Every match of the standard-form pattern begins with `[`,
so the `!m.startsWith("!")` image filter in `countMarkdownLinks` never rejects
anything and `![img](http://y)` is counted as a markdown link, contradicting
the claimed count of 1. -/
theorem countMarkdownLinks_counts_images (p : Preset) :
    (computeMetrics (("See [docs](http://x) and ![img](http://y)").data) p).markdownLinks
      = 2 := by
  rw [computeMetrics_markdownLinks]
  decide

/-- C2: with `ignoreWikiLinks = true`, the `wordsWithSpaces` metric does not
depend on the value of `countWikiLinkDisplayText`: the wiki-link branch checks
`ignoreWikiLinks` first and the display-text flag is read nowhere else. -/
theorem wordsWithSpaces_displayText_noninterference
    (raw : List Char) (p : Preset) (b1 b2 : Bool)
    (h : p.ignoreWikiLinks = true) :
    (computeMetrics raw { p with countWikiLinkDisplayText := b1 }).wordsWithSpaces
      = (computeMetrics raw { p with countWikiLinkDisplayText := b2 }).wordsWithSpaces := by
  obtain ⟨wpp, s1, s2, s3, s4, s5, s6, s7, s8, s9, md, wdt, iw, ck, ic⟩ := p
  simp only at h
  subst h
  simp [computeMetrics, preprocessText, preprocessBase, pipelineAfterFrontmatter,
    wikiStep]

/-- C2 witness: the theorem applied at a concrete text and preset. -/
theorem wordsWithSpaces_displayText_noninterference_witness :
    ({ samplePreset with ignoreWikiLinks := true } : Preset).ignoreWikiLinks = true
    ∧ (computeMetrics (("a [[b|c]] d").data)
        { { samplePreset with ignoreWikiLinks := true } with
            countWikiLinkDisplayText := true }).wordsWithSpaces
      = (computeMetrics (("a [[b|c]] d").data)
          { { samplePreset with ignoreWikiLinks := true } with
              countWikiLinkDisplayText := false }).wordsWithSpaces :=
  ⟨rfl, wordsWithSpaces_displayText_noninterference (("a [[b|c]] d").data)
    { samplePreset with ignoreWikiLinks := true } true false rfl⟩

/-- C3: the five structural metrics (`markdownLinks`, `wikiLinks`, `citekeys`,
`lines`, `paragraphs`) are computed from the raw text only, so they agree
under any two presets. -/
theorem structuralMetrics_preset_independent (T : List Char) (P1 P2 : Preset) :
    (computeMetrics T P1).markdownLinks = (computeMetrics T P2).markdownLinks
    ∧ (computeMetrics T P1).wikiLinks = (computeMetrics T P2).wikiLinks
    ∧ (computeMetrics T P1).citekeys = (computeMetrics T P2).citekeys
    ∧ (computeMetrics T P1).lines = (computeMetrics T P2).lines
    ∧ (computeMetrics T P1).paragraphs = (computeMetrics T P2).paragraphs :=
  ⟨rfl, rfl, rfl, rfl, rfl⟩

/-- C4 counterexample: on `"a\nb"` (default preset) the code's
`charsWithSpaces` is the full buffer length 3, not the length 2 obtained after
removing newline characters: the current revision does not remove newlines. -/
theorem charsWithSpaces_removesNewlines_cex :
    ¬ ((computeMetrics (("a\nb").data) samplePreset).charsWithSpaces
        = ((charBufferWithSpaces (("a\nb").data) samplePreset).filter
            fun c => !(c == '\n')).length) := by
  decide

/-- C4 amended: `charsWithSpaces` equals the full length of the with-spaces
character buffer, newline characters included (no whitespace of any kind is
removed from the with-spaces buffer before measuring). -/
theorem charsWithSpaces_is_buffer_length (raw : List Char) (p : Preset) :
    (computeMetrics raw p).charsWithSpaces = (charBufferWithSpaces raw p).length := by
  rw [computeMetrics_charsWithSpaces]
  simp only [countCharsWithSpaces, charBufferWithSpaces]

/-- C5: on `"Hello [[World]] and [@doe2020]."` with `ignoreWikiLinks = false`,
`countWikiLinkDisplayText = false`, `countCitekeysAsWords = true`,
`ignoreComments = true`, the word buffer splits into exactly the tokens
`Hello`, `World`, `and`, `doe2020.` and `wordsWithSpaces = 4`. -/
theorem scenario_wikilink_citekey_words (p : Preset)
    (h1 : p.ignoreWikiLinks = false) (h2 : p.countWikiLinkDisplayText = false)
    (h3 : p.countCitekeysAsWords = true) (h4 : p.ignoreComments = true) :
    splitWs (jsTrim (preprocessText (("Hello [[World]] and [@doe2020].").data) p))
      = [(("Hello").data), (("World").data), (("and").data), (("doe2020.").data)]
    ∧ (computeMetrics (("Hello [[World]] and [@doe2020].").data) p).wordsWithSpaces
        = 4 := by
  have hpre : preprocessText (("Hello [[World]] and [@doe2020].").data) p
      = preprocessText (("Hello [[World]] and [@doe2020].").data)
        { samplePreset with
            countCitekeysAsWords := true,
            countMdLinksAsWords := p.countMdLinksAsWords } := by
    apply preprocessText_policy <;> simp_all [samplePreset]
  rw [computeMetrics_wordsWithSpaces, hpre]
  cases hmd : p.countMdLinksAsWords <;> exact ⟨by decide, by decide⟩

/-- C5 witness: the theorem applied at a concrete preset. -/
theorem scenario_wikilink_citekey_words_witness :
    ({ samplePreset with countCitekeysAsWords := true } : Preset).ignoreWikiLinks = false
    ∧ ({ samplePreset with countCitekeysAsWords := true } : Preset).countWikiLinkDisplayText = false
    ∧ ({ samplePreset with countCitekeysAsWords := true } : Preset).countCitekeysAsWords = true
    ∧ ({ samplePreset with countCitekeysAsWords := true } : Preset).ignoreComments = true
    ∧ (splitWs (jsTrim (preprocessText (("Hello [[World]] and [@doe2020].").data)
          { samplePreset with countCitekeysAsWords := true }))
        = [(("Hello").data), (("World").data), (("and").data), (("doe2020.").data)]
      ∧ (computeMetrics (("Hello [[World]] and [@doe2020].").data)
          { samplePreset with countCitekeysAsWords := true }).wordsWithSpaces = 4) :=
  ⟨rfl, rfl, rfl, rfl,
    scenario_wikilink_citekey_words
      { samplePreset with countCitekeysAsWords := true } rfl rfl rfl rfl⟩

/-! ### Frontmatter lemmas (C9) -/

lemma prefix2_dash (mid rest : List Char)
    (h : (['-', '-'] : List Char).isPrefixOf (mid ++ '-' :: '-' :: '-' :: rest)) :
    (['-', '-'] : List Char).isPrefixOf (mid ++ ['-', '-']) := by
  rcases mid with _ | ⟨d, mid2⟩
  · simp [List.isPrefixOf]
  · rcases mid2 with _ | ⟨e, mid3⟩
    · simp only [List.isPrefixOf, List.nil_append, List.cons_append] at h ⊢
      exact h
    · simp only [List.isPrefixOf, List.cons_append] at h ⊢
      exact h

/-- When `---` does not occur before the closing delimiter, the lazy scan
stops exactly at that delimiter. -/
lemma dropTripleDash_first : ∀ (mid : List Char),
    hasTripleDash (mid ++ ['-', '-']) = false →
    ∀ rest : List Char,
      dropTripleDash (mid ++ '-' :: '-' :: '-' :: rest) = some rest := by
  intro mid
  induction mid with
  | nil => intro h rest; simp [dropTripleDash, List.isPrefixOf]
  | cons c mid ih =>
    intro h rest
    simp only [List.cons_append] at h ⊢
    by_cases hp : ['-', '-', '-'].isPrefixOf (c :: (mid ++ '-' :: '-' :: '-' :: rest))
    · exfalso
      have hpre : ['-', '-', '-'].isPrefixOf (c :: (mid ++ ['-', '-'])) := by
        simp only [List.isPrefixOf] at hp ⊢
        rcases Bool.and_eq_true_iff.mp hp with ⟨hc, hrest⟩
        exact Bool.and_eq_true_iff.mpr ⟨hc, prefix2_dash mid rest hrest⟩
      have : hasTripleDash (c :: (mid ++ ['-', '-'])) = true := by
        simp [hasTripleDash, dropTripleDash, hpre]
      simp_all
    · have hstep : dropTripleDash (c :: (mid ++ '-' :: '-' :: '-' :: rest))
          = dropTripleDash (mid ++ '-' :: '-' :: '-' :: rest) := by
        simp [dropTripleDash, hp]
      have htail : hasTripleDash (mid ++ ['-', '-']) = false := by
        by_cases hq : ['-', '-', '-'].isPrefixOf (c :: (mid ++ ['-', '-']))
        · exfalso
          have : hasTripleDash (c :: (mid ++ ['-', '-'])) = true := by
            simp [hasTripleDash, dropTripleDash, hq]
          simp_all
        · have heq : hasTripleDash (c :: (mid ++ ['-', '-']))
              = hasTripleDash (mid ++ ['-', '-']) := by
            simp [hasTripleDash, dropTripleDash, hq]
          rw [← heq]; simpa using h
      rw [hstep]; exact ih htail rest

/-- C9: a document whose first three characters are `---` and whose remainder
contains a later `---` loses everything up to the end of the first such
occurrence plus one optional newline — no line structure is required — and
both `preprocessBase` and `countParagraphs` apply exactly this removal.
The hypothesis states that the exhibited closing delimiter is the first one
(no `---` occurs earlier, not even straddling into it). -/
theorem frontmatter_strip_unconditional (mid rest : List Char) (p : Preset)
    (h : hasTripleDash (mid ++ ['-', '-']) = false) :
    stripFrontmatter ('-' :: '-' :: '-' :: (mid ++ '-' :: '-' :: '-' :: rest))
      = dropLeadingNewline rest
    ∧ preprocessBase ('-' :: '-' :: '-' :: (mid ++ '-' :: '-' :: '-' :: rest)) p
      = pipelineAfterFrontmatter (dropLeadingNewline rest) p
    ∧ countParagraphs ('-' :: '-' :: '-' :: (mid ++ '-' :: '-' :: '-' :: rest))
      = countBlocks (dropLeadingNewline rest) := by
  have h1 : stripFrontmatter ('-' :: '-' :: '-' :: (mid ++ '-' :: '-' :: '-' :: rest))
      = dropLeadingNewline rest := by
    simp only [stripFrontmatter, dropTripleDash_first mid h rest]
  refine ⟨h1, ?_, ?_⟩
  · simp only [preprocessBase, h1]
  · simp only [countParagraphs, h1, if_neg (by simp : ¬('-' :: '-' :: '-' ::
      (mid ++ '-' :: '-' :: '-' :: rest) = [])), reduceCtorEq, ite_false]

/-- C9 witness: the theorem applied to a concrete frontmatter-shaped text. -/
theorem frontmatter_strip_unconditional_witness :
    hasTripleDash ((("\nt: 1\n").data) ++ ['-', '-']) = false
    ∧ (stripFrontmatter ('-' :: '-' :: '-' ::
          ((("\nt: 1\n").data) ++ '-' :: '-' :: '-' :: (("\nHi").data)))
        = dropLeadingNewline (("\nHi").data)
      ∧ preprocessBase ('-' :: '-' :: '-' ::
          ((("\nt: 1\n").data) ++ '-' :: '-' :: '-' :: (("\nHi").data))) samplePreset
        = pipelineAfterFrontmatter (dropLeadingNewline (("\nHi").data)) samplePreset
      ∧ countParagraphs ('-' :: '-' :: '-' ::
          ((("\nt: 1\n").data) ++ '-' :: '-' :: '-' :: (("\nHi").data)))
        = countBlocks (dropLeadingNewline (("\nHi").data))) :=
  ⟨by decide,
    frontmatter_strip_unconditional (("\nt: 1\n").data) (("\nHi").data)
      samplePreset (by decide)⟩

/-- C10: the citekey-counting regex requires at least one key character while
the stripping regex does not: `[@]` never begins a counted match (whatever
follows), the stripping matcher removes it, `countCitekeys "[@]" = 0`, and
with `countCitekeysAsWords = false` the preprocessor erases `[@]` from the
word buffer. -/
theorem citekeys_empty_key (rest : List Char) (p : Preset)
    (h : p.countCitekeysAsWords = false) :
    matchCitePlus ('[' :: '@' :: ']' :: rest) = none
    ∧ matchCiteStar ('[' :: '@' :: ']' :: rest) = some ([], rest)
    ∧ countCitekeys (("[@]").data) = 0
    ∧ citekeyStep p.countCitekeysAsWords (("x [@] y").data) = (("x  y").data) := by
  refine ⟨?_, ?_, by decide, ?_⟩
  · simp [matchCitePlus]
  · simp [matchCiteStar]
  · rw [h]; decide

/-- C10 witness: the theorem applied at `rest = []` and the default preset. -/
theorem citekeys_empty_key_witness :
    samplePreset.countCitekeysAsWords = false
    ∧ (matchCitePlus ('[' :: '@' :: ']' :: []) = none
      ∧ matchCiteStar ('[' :: '@' :: ']' :: []) = some ([], [])
      ∧ countCitekeys (("[@]").data) = 0
      ∧ citekeyStep samplePreset.countCitekeysAsWords (("x [@] y").data)
          = (("x  y").data)) :=
  ⟨rfl, citekeys_empty_key [] samplePreset rfl⟩

/-! ### Word-count revision equivalence (C8) -/

lemma dropWhile_head_false {α : Type} (p : α → Bool) (l : List α) (c : α)
    (cs : List α) (h : l.dropWhile p = c :: cs) : p c = false := by
  induction l with
  | nil => simp at h
  | cons a as ih =>
    rw [List.dropWhile_cons] at h
    by_cases hp : p a = true
    · rw [if_pos hp] at h; exact ih h
    · rw [if_neg hp] at h
      injection h with h1 h2
      subst h1
      simpa using hp

lemma splitWsAux_ne_nil : ∀ (fuel : Nat) (s : List Char), s.length ≤ fuel → s ≠ [] →
    (∀ c cs, s = c :: cs → isWs c = false) →
    (∀ c, s.getLast? = some c → isWs c = false) →
    ∀ t ∈ splitWsAux fuel s, t ≠ [] := by
  intro fuel
  induction fuel with
  | zero =>
    intro s hlen hne _ _
    have : s.length = 0 := Nat.le_zero.mp hlen
    rw [List.length_eq_zero] at this
    exact absurd this hne
  | succ fuel ih =>
    intro s hlen hne hhead hlast t ht
    have hsplit : (s.takeWhile fun c => !isWs c) ++ (s.dropWhile fun c => !isWs c) = s :=
      List.takeWhile_append_dropWhile _ _
    cases hd : s.dropWhile (fun c => !isWs c) with
    | nil =>
      simp only [splitWsAux, hd, List.mem_singleton] at ht
      subst ht
      rw [hd, List.append_nil] at hsplit
      rw [hsplit]
      exact hne
    | cons x xs =>
      simp only [splitWsAux, hd, List.mem_cons] at ht
      rcases ht with rfl | hmem
      · rcases s with _ | ⟨c, cs⟩
        · exact absurd rfl hne
        · have hc : isWs c = false := hhead c cs rfl
          rw [List.takeWhile_cons_of_pos (by simp [hc])]
          simp
      · -- recursive case
        have hxws : isWs x = true := by
          have := dropWhile_head_false (fun c => !isWs c) s x xs hd
          simpa using this
        rw [hd] at hsplit
        have hlast2 : s.getLast? = (x :: xs).getLast? := by
          rw [← hsplit]
          exact List.getLast?_append_of_ne_nil _ (by simp)
        -- the next input
        by_cases h2 : xs.dropWhile isWs = []
        · -- then every element of x :: xs is whitespace, contradicting hlast
          exfalso
          have hall : ∀ y ∈ xs, isWs y := List.dropWhile_eq_nil_iff.mp h2
          have hnenil : (x :: xs) ≠ ([] : List Char) := by simp
          have hgmem := List.getLast_mem hnenil
          have hgl : (x :: xs).getLast? = some ((x :: xs).getLast hnenil) :=
            List.getLast?_eq_getLast _ hnenil
          have hwsg : isWs ((x :: xs).getLast hnenil) = true := by
            rcases List.mem_cons.mp hgmem with h3 | h3
            · rw [h3]; exact hxws
            · exact hall _ h3
          have := hlast _ (hlast2.trans hgl)
          rw [this] at hwsg
          exact Bool.false_ne_true hwsg
        · rcases hne2 : xs.dropWhile isWs with _ | ⟨y, ys⟩
          · exact absurd hne2 h2
          · have hylen : (xs.dropWhile isWs).length ≤ fuel := by
              have l1 : (xs.dropWhile isWs).length ≤ xs.length :=
                (List.dropWhile_sublist _).length_le
              have l2 : s.length = (s.takeWhile fun c => !isWs c).length + (xs.length + 1) := by
                conv_lhs => rw [← hsplit]
                simp
              omega
            have hyhead : ∀ c cs, xs.dropWhile isWs = c :: cs → isWs c = false := by
              intro c cs h
              exact dropWhile_head_false isWs xs c cs h
            have hylast : ∀ c, (xs.dropWhile isWs).getLast? = some c → isWs c = false := by
              intro c hgl
              apply hlast
              rw [hlast2]
              have hxsplit : xs.takeWhile isWs ++ xs.dropWhile isWs = xs :=
                List.takeWhile_append_dropWhile _ _
              have : (x :: xs).getLast? = (xs.dropWhile isWs).getLast? := by
                conv_lhs => rw [← hxsplit]
                rw [← List.cons_append]
                exact List.getLast?_append_of_ne_nil _ (by rw [hne2]; simp)
              rw [this]
              exact hgl
            exact ih (xs.dropWhile isWs) hylen (by rw [hne2]; simp)
              hyhead hylast t hmem


lemma jsTrim_last_not_ws (s : List Char) (c : Char)
    (h : (jsTrim s).getLast? = some c) : isWs c = false := by
  unfold jsTrim at h
  rw [List.getLast?_reverse] at h
  rcases hb : ((s.dropWhile isWs).reverse.dropWhile isWs) with _ | ⟨y, ys⟩
  · rw [hb] at h; simp at h
  · rw [hb] at h
    simp only [List.head?_cons, Option.some.injEq] at h
    subst h
    exact dropWhile_head_false isWs _ _ _ hb

lemma jsTrim_head_not_ws (s : List Char) (c : Char) (cs : List Char)
    (h : jsTrim s = c :: cs) : isWs c = false := by
  unfold jsTrim at h
  set a := s.dropWhile isWs with ha
  set b := a.reverse.dropWhile isWs with hbdef
  have hbne : b ≠ [] := by
    intro hb
    rw [hb] at h
    simp at h
  have h1 : b.getLast? = some c := by
    rw [← List.head?_reverse, h]
    rfl
  have h2 : a.reverse.getLast? = some c := by
    have hsplit : a.reverse.takeWhile isWs ++ b = a.reverse :=
      List.takeWhile_append_dropWhile _ _
    rw [← hsplit, List.getLast?_append_of_ne_nil _ hbne]
    exact h1
  have h3 : a.head? = some c := by
    rw [← List.getLast?_reverse]
    exact h2
  rcases hda : a with _ | ⟨x, xs⟩
  · rw [hda] at h3; simp at h3
  · rw [hda] at h3
    simp only [List.head?_cons, Option.some.injEq] at h3
    subst h3
    exact dropWhile_head_false isWs s _ _ hda

/-- C8: the two revisions of `countWordsWithSpaces` agree on every input:
splitting a nonempty trimmed string on whitespace runs never produces an empty
token, so the later revision's unfiltered count equals the earlier revision's
filtered count. -/
theorem countWordsWithSpaces_revisions_agree (s : List Char) :
    countWordsWithSpaces s = countWordsWithSpacesPrev s := by
  unfold countWordsWithSpaces countWordsWithSpacesPrev
  by_cases h : jsTrim s = []
  · simp [h]
  · simp only [h, if_neg, ite_false]
    have hfull : (splitWs (jsTrim s)).filter (fun w => decide (0 < w.length))
        = splitWs (jsTrim s) := by
      rw [List.filter_eq_self]
      intro w hw
      have hne : w ≠ [] := by
        apply splitWsAux_ne_nil (jsTrim s).length (jsTrim s) le_rfl h
        · intro c cs hc; exact jsTrim_head_not_ws s c cs hc
        · intro c hc; exact jsTrim_last_not_ws s c hc
        · exact hw
      simp [List.length_pos, hne]
    rw [hfull]

/-! ### List-marker substitution is line-anchored (C6) -/

lemma splitLines_ne_nil (s : List Char) : splitLines s ≠ [] := by
  induction s with
  | nil => simp [splitLines]
  | cons c cs ih =>
    rw [splitLines]
    by_cases hc : c = '\n'
    · simp [hc]
    · rw [if_neg hc]
      cases hsl : splitLines cs with
      | nil => simp
      | cons l ls => simp

lemma splitLines_no_newline (s : List Char) :
    ∀ l ∈ splitLines s, '\n' ∉ l := by
  induction s with
  | nil => intro l hl; simp [splitLines] at hl; simp [hl]
  | cons c cs ih =>
    intro l hl
    rw [splitLines] at hl
    by_cases hc : c = '\n'
    · rw [if_pos hc] at hl
      rcases List.mem_cons.mp hl with rfl | h
      · simp
      · exact ih l h
    · rw [if_neg hc] at hl
      cases hsl : splitLines cs with
      | nil => exact absurd hsl (splitLines_ne_nil cs)
      | cons m ms =>
        rw [hsl] at hl
        rcases List.mem_cons.mp hl with rfl | h
        · intro hmem
          rcases List.mem_cons.mp hmem with h1 | h1
          · exact hc h1.symm
          · exact ih m (by rw [hsl]; exact List.mem_cons_self m ms) h1
        · exact ih l (by rw [hsl]; exact List.mem_cons_of_mem m h)

lemma splitLines_of_no_newline (l : List Char) (h : '\n' ∉ l) :
    splitLines l = [l] := by
  induction l with
  | nil => simp [splitLines]
  | cons c cs ih =>
    have hc : c ≠ '\n' := fun hc => h (by rw [hc]; exact List.mem_cons_self _ _)
    have hcs : '\n' ∉ cs := fun hm => h (List.mem_cons_of_mem _ hm)
    rw [splitLines, if_neg hc, ih hcs]

lemma splitLines_append_newline (l r : List Char) (h : '\n' ∉ l) :
    splitLines (l ++ '\n' :: r) = l :: splitLines r := by
  induction l with
  | nil => simp [splitLines]
  | cons c cs ih =>
    have hc : c ≠ '\n' := fun hc => h (by rw [hc]; exact List.mem_cons_self _ _)
    have hcs : '\n' ∉ cs := fun hm => h (List.mem_cons_of_mem _ hm)
    rw [List.cons_append, splitLines, if_neg hc, ih hcs]

lemma splitLines_joinLines : ∀ (ls : List (List Char)), ls ≠ [] →
    (∀ l ∈ ls, '\n' ∉ l) → splitLines (joinLines ls) = ls := by
  intro ls
  induction ls with
  | nil => intro h; exact absurd rfl h
  | cons l ls ih =>
    intro _ hnl
    cases ls with
    | nil =>
      rw [joinLines]
      exact splitLines_of_no_newline l (hnl l (List.mem_cons_self _ _))
    | cons m ms =>
      show splitLines (l ++ '\n' :: joinLines (m :: ms)) = l :: m :: ms
      rw [splitLines_append_newline _ _ (hnl l (List.mem_cons_self _ _))]
      rw [ih (fun h => List.noConfusion h) fun x hx => hnl x (List.mem_cons_of_mem _ hx)]


lemma matchCheckbox_suffix (l r : List Char) (h : matchCheckbox l = some r) :
    r.IsSuffix l := by
  unfold matchCheckbox at h
  split at h
  · rename_i a b c d e f r0
    split at h
    · injection h with h1
      subst h1
      exact ⟨[a, b, c, d, e, f], rfl⟩
    · exact absurd h (by simp)
  · exact absurd h (by simp)

lemma matchUnorderedLine_suffix (l r : List Char)
    (h : matchUnorderedLine l = some r) : r.IsSuffix l := by
  unfold matchUnorderedLine at h
  split at h
  · rename_i c w r0
    split at h
    · injection h with h1
      subst h1
      exact ⟨[c, w], rfl⟩
    · exact absurd h (by simp)
  · exact absurd h (by simp)

lemma matchNumDotLine_suffix (l r : List Char)
    (h : matchNumDotLine l = some r) : r.IsSuffix l := by
  unfold matchNumDotLine at h
  split at h
  · exact absurd h (by simp)
  · split at h
    · rename_i r0 hdrop
      injection h with h1
      subst h1
      have h2 : ('.' :: ' ' :: r0).IsSuffix l := by
        rw [← hdrop]
        exact List.drop_suffix _ _
      exact (List.suffix_cons _ _).trans ((List.suffix_cons _ _).trans h2)
    · exact absurd h (by simp)

lemma matchNumParenLine_suffix (l r : List Char)
    (h : matchNumParenLine l = some r) : r.IsSuffix l := by
  unfold matchNumParenLine at h
  split at h
  · exact absurd h (by simp)
  · split at h
    · rename_i r0 hdrop
      injection h with h1
      subst h1
      have h2 : (')' :: ' ' :: r0).IsSuffix l := by
        rw [← hdrop]
        exact List.drop_suffix _ _
      exact (List.suffix_cons _ _).trans ((List.suffix_cons _ _).trans h2)
    · exact absurd h (by simp)


lemma matchCheckbox_x01 (r : List Char) : matchCheckbox ('\x01' :: r) = none := by
  rcases r with _ | ⟨b, _ | ⟨c, _ | ⟨d, _ | ⟨e, _ | ⟨f, r⟩⟩⟩⟩⟩ <;>
    simp [matchCheckbox]

lemma matchUnorderedLine_x01 (r : List Char) :
    matchUnorderedLine ('\x01' :: r) = none := by
  rcases r with _ | ⟨w, r⟩ <;> simp [matchUnorderedLine]

lemma matchNumDotLine_x01 (r : List Char) :
    matchNumDotLine ('\x01' :: r) = none := by
  simp [matchNumDotLine, isDigit]

lemma matchNumParenLine_x01 (r : List Char) :
    matchNumParenLine ('\x01' :: r) = none := by
  simp [matchNumParenLine, isDigit]

lemma uPlaceholder_cons (cs : Bool) (r : List Char) :
    ∃ t, uPlaceholder cs ++ r = '\x01' :: t := by
  cases cs <;> exact ⟨_, rfl⟩

lemma nPlaceholder_cons (cs : Bool) (r : List Char) :
    ∃ t, nPlaceholder cs ++ r = '\x01' :: t := by
  cases cs <;> exact ⟨_, rfl⟩

/-- The one-pass, first-match-wins line transform described by the spec: a
checkbox or unordered marker at the head of a line becomes the short
placeholder, a numbered marker becomes the long one, the rest of the line is
kept verbatim, and unmarked lines are untouched. -/
def listMarkerLineSpec (countSpaces : Bool) (l : List Char) : List Char :=
  match matchCheckbox l with
  | some r => uPlaceholder countSpaces ++ r
  | none =>
    match matchUnorderedLine l with
    | some r => uPlaceholder countSpaces ++ r
    | none =>
      match matchNumDotLine l with
      | some r => nPlaceholder countSpaces ++ r
      | none =>
        match matchNumParenLine l with
        | some r => nPlaceholder countSpaces ++ r
        | none => l

lemma rewrite_comp_eq_spec (cs : Bool) (l : List Char) :
    rewriteLine matchNumParenLine (nPlaceholder cs)
      (rewriteLine matchNumDotLine (nPlaceholder cs)
        (rewriteLine matchUnorderedLine (uPlaceholder cs)
          (rewriteLine matchCheckbox (uPlaceholder cs) l)))
      = listMarkerLineSpec cs l := by
  unfold listMarkerLineSpec rewriteLine
  cases h1 : matchCheckbox l with
  | some r =>
    dsimp only
    obtain ⟨t, ht⟩ := uPlaceholder_cons cs r
    rw [ht, matchUnorderedLine_x01, matchNumDotLine_x01, matchNumParenLine_x01]
  | none =>
    dsimp only
    cases h2 : matchUnorderedLine l with
    | some r =>
      dsimp only
      obtain ⟨t, ht⟩ := uPlaceholder_cons cs r
      rw [ht, matchNumDotLine_x01, matchNumParenLine_x01]
    | none =>
      dsimp only
      cases h3 : matchNumDotLine l with
      | some r =>
        dsimp only
        obtain ⟨t, ht⟩ := nPlaceholder_cons cs r
        rw [ht, matchNumParenLine_x01]
      | none =>
        dsimp only


lemma rewriteLine_no_newline (m : List Char → Option (List Char))
    (repl : List Char) (hm : ∀ l r, m l = some r → r.IsSuffix l)
    (hrepl : '\n' ∉ repl) (l : List Char) (hl : '\n' ∉ l) :
    '\n' ∉ rewriteLine m repl l := by
  unfold rewriteLine
  cases h : m l with
  | none => exact hl
  | some r =>
    intro hmem
    rcases List.mem_append.mp hmem with h1 | h1
    · exact hrepl h1
    · exact hl ((hm l r h).sublist.subset h1)

lemma splitLines_replaceLineStarts (m : List Char → Option (List Char))
    (repl : List Char) (s : List Char)
    (hm : ∀ l r, m l = some r → r.IsSuffix l) (hrepl : '\n' ∉ repl) :
    splitLines (replaceLineStarts m repl s)
      = (splitLines s).map (rewriteLine m repl) := by
  unfold replaceLineStarts
  apply splitLines_joinLines
  · intro hc
    rcases hsl : splitLines s with _ | ⟨l, ls⟩
    · exact splitLines_ne_nil s hsl
    · rw [hsl] at hc
      simp at hc
  · intro l' hl'
    rcases List.mem_map.mp hl' with ⟨l, hl, rfl⟩
    exact rewriteLine_no_newline m repl hm hrepl l (splitLines_no_newline s l hl)

/-- C6: producing the character buffer is a per-line transform: the text splits
into lines, each line's leading list marker (checkbox/unordered, or numbered
with `.` or `)`) is replaced by the fixed-width placeholder while the rest of
the line — including marker-like sequences occurring mid-line — is kept
verbatim, and the placeholder widths are 2/1 (checkbox and unordered,
with/without spaces) and 3/2 (numbered). -/
theorem substituteListMarkers_line_anchored (base : List Char) (countSpaces : Bool) :
    substituteListMarkers base countSpaces
      = joinLines ((splitLines base).map (listMarkerLineSpec countSpaces))
    ∧ (uPlaceholder countSpaces).length = (if countSpaces then 2 else 1)
    ∧ (nPlaceholder countSpaces).length = (if countSpaces then 3 else 2) := by
  refine ⟨?_, by cases countSpaces <;> rfl, by cases countSpaces <;> rfl⟩
  have hu : '\n' ∉ uPlaceholder countSpaces := by cases countSpaces <;> decide
  have hn : '\n' ∉ nPlaceholder countSpaces := by cases countSpaces <;> decide
  have s1 := splitLines_replaceLineStarts matchCheckbox (uPlaceholder countSpaces)
    base matchCheckbox_suffix hu
  have s2 := splitLines_replaceLineStarts matchUnorderedLine (uPlaceholder countSpaces)
    (replaceLineStarts matchCheckbox (uPlaceholder countSpaces) base)
    matchUnorderedLine_suffix hu
  have s3 := splitLines_replaceLineStarts matchNumDotLine (nPlaceholder countSpaces)
    (replaceLineStarts matchUnorderedLine (uPlaceholder countSpaces)
      (replaceLineStarts matchCheckbox (uPlaceholder countSpaces) base))
    matchNumDotLine_suffix hn
  unfold substituteListMarkers
  conv_lhs => rw [replaceLineStarts, s3, s2, s1]
  rw [List.map_map, List.map_map, List.map_map]
  congr 1
  apply List.map_congr_left
  intro l _
  have := rewrite_comp_eq_spec countSpaces l
  simpa [Function.comp] using this

end WordCount
